import Mathlib

/-!
Verification of the indicator core of the stock-scanner repository
(`src/indicators.py`).  Prices are modelled as exact rationals; the single
call to `math.sqrt` is modelled by `Real.sqrt`.  Each Python function of the
indicator module is embedded as a Lean definition of the same name, and the
behavioural claims about the module are proved below the definitions.
-/

/-- One row of the price table: the optional `symbol`, `close` and `date`
fields, all stored as text exactly as the CSV-derived table supplies them.
A value `none` models a missing key, so `entry.get` on a missing key
returning Python `None` is `none` here. -/
structure Row where
  symbol : Option String
  close : Option String
  date : Option String
deriving DecidableEq

/-- Numeric value of a list of decimal digit characters, most significant
first (used by the parsing models below). -/
def digitsVal (cs : List Char) : ℕ :=
  cs.foldl (fun n c => n * 10 + (c.toNat - 48)) 0

/-- Check that every character of the list is a decimal digit. -/
def isDigits (cs : List Char) : Bool :=
  cs.all (fun c => c.isDigit)

/-- Models the Python call `float(s)` restricted to plain decimal literals:
an optional sign, integer digits, and an optional fractional part, at least
one digit overall.  Returns `none` exactly when parsing fails, which the
source catches as `TypeError` or `ValueError` and answers by skipping the
row. -/
def parseFloat (s : String) : Option ℚ :=
  let cs := s.toList
  let sb : ℚ × List Char :=
    match cs with
    | '-' :: rest => (-1, rest)
    | '+' :: rest => (1, rest)
    | _ => (1, cs)
  match sb.2.splitOn '.' with
  | [ip] =>
      if isDigits ip ∧ ip ≠ [] then some (sb.1 * (digitsVal ip : ℚ)) else none
  | [ip, fp] =>
      if isDigits ip ∧ isDigits fp ∧ ¬(ip = [] ∧ fp = []) then
        some (sb.1 * ((digitsVal ip : ℚ) + (digitsVal fp : ℚ) / (10 : ℚ) ^ fp.length))
      else none
  | _ => none

/-- Leap year test of the proleptic Gregorian calendar, as the Python
`datetime` constructor uses it when validating the day of the month. -/
def isLeap (y : ℕ) : Bool :=
  (y % 4 == 0 && y % 100 != 0) || (y % 400 == 0)

/-- Number of days of a month, matching the `datetime` validation. -/
def daysInMonth (y m : ℕ) : ℕ :=
  if m = 2 then (if isLeap y then 29 else 28)
  else if m = 4 ∨ m = 6 ∨ m = 9 ∨ m = 11 then 30 else 31

/-- Linear day count of a calendar date (the era-based civil-date formula),
strictly increasing over valid dates, so that key differences measure real
time and offset arithmetic crosses month and year boundaries exactly. -/
def dayNumber (y m d : ℕ) : ℕ :=
  let ys := if m ≤ 2 then y - 1 else y
  let era := ys / 400
  let yoe := ys % 400
  let mp := if 2 < m then m - 3 else m + 9
  let doy := (153 * mp + 2) / 5 + (d - 1)
  let doe := yoe * 365 + yoe / 4 - yoe / 100 + doy
  era * 146097 + doe

/-- Parsed datetime value: the awareness flag (true exactly when the string
carries a UTC offset) and the instant key in microseconds on the linear day
count, offset-adjusted for aware values.  Python compares two datetimes by
this key when their awareness agrees, and raises `TypeError` on a mixed
naive and aware comparison, an error `get_latest_close` does not catch; the
total model cannot raise, so the date-sensitive theorems below carry the
hypothesis that all dated values of the table share one awareness. -/
abbrev PyDT : Type := Bool × ℤ

/-- Microsecond key of the wall-clock components. -/
def naiveKey (y m d hh mm ss us : ℕ) : ℤ :=
  (((((dayNumber y m d * 24 + hh) * 60 + mm) * 60 + ss) * 1000000 + us : ℕ) : ℤ)

/-- The date part `YYYY-MM-DD` of `fromisoformat`, digit-strict and
calendar-validated exactly as the `datetime` constructor validates it:
year at least 1, month 1 to 12, day within the month (leap years
included). -/
def parseDatePart (cs : List Char) : Option (ℕ × ℕ × ℕ) :=
  match cs with
  | [y1, y2, y3, y4, s1, m1, m2, s2, d1, d2] =>
      if s1 = '-' ∧ s2 = '-' ∧ isDigits [y1, y2, y3, y4] ∧ isDigits [m1, m2]
          ∧ isDigits [d1, d2] then
        let y := digitsVal [y1, y2, y3, y4]
        let m := digitsVal [m1, m2]
        let d := digitsVal [d1, d2]
        if 1 ≤ y ∧ 1 ≤ m ∧ m ≤ 12 ∧ 1 ≤ d ∧ d ≤ daysInMonth y m then some (y, m, d)
        else none
      else none
  | _ => none

/-- The time component grammar of `fromisoformat` (CPython 3.7 to 3.10):
`HH`, `HH:MM`, `HH:MM:SS`, `HH:MM:SS.fff` or `HH:MM:SS.ffffff`, returning
hours, minutes, seconds and microseconds without range checks, which the
caller applies exactly as Python does. -/
def parseTimeComps (cs : List Char) : Option (ℕ × ℕ × ℕ × ℕ) :=
  match cs with
  | [a, b] =>
      if isDigits [a, b] then some (digitsVal [a, b], 0, 0, 0) else none
  | [a, b, c1, c, d] =>
      if c1 = ':' ∧ isDigits [a, b] ∧ isDigits [c, d] then
        some (digitsVal [a, b], digitsVal [c, d], 0, 0)
      else none
  | [a, b, c1, c, d, c2, e, f] =>
      if c1 = ':' ∧ c2 = ':' ∧ isDigits [a, b] ∧ isDigits [c, d] ∧ isDigits [e, f] then
        some (digitsVal [a, b], digitsVal [c, d], digitsVal [e, f], 0)
      else none
  | a :: b :: c1 :: c :: d :: c2 :: e :: f :: dot :: fs =>
      if c1 = ':' ∧ c2 = ':' ∧ dot = '.' ∧ isDigits [a, b] ∧ isDigits [c, d]
          ∧ isDigits [e, f] ∧ isDigits fs ∧ (fs.length = 3 ∨ fs.length = 6) then
        some (digitsVal [a, b], digitsVal [c, d], digitsVal [e, f],
          if fs.length = 3 then digitsVal fs * 1000 else digitsVal fs)
      else none
  | _ => none

/-- The UTC offset after its sign: exactly `HH:MM`, `HH:MM:SS` or
`HH:MM:SS.ffffff` (string lengths 5, 8 and 15, the check CPython makes),
returned as total microseconds. -/
def parseTzMicros (tz : List Char) : Option ℕ :=
  if tz.length = 5 ∨ tz.length = 8 ∨ tz.length = 15 then
    match parseTimeComps tz with
    | some (hh, mm, ss, us) => some (((hh * 60 + mm) * 60 + ss) * 1000000 + us)
    | none => none
  else none

/-- Time-of-day and offset handling of `fromisoformat`: the first `-` (else
the first `+`) of the time substring starts the offset; wall-clock hour,
minute and second are range-checked as the `datetime` constructor does; the
offset magnitude must stay below 24 hours as the `timezone` constructor
requires; an offset makes the value aware, keyed by its instant. -/
def parseTimeAndTz (y m d : ℕ) (tstr : List Char) : Option PyDT :=
  let tzIdx :=
    match tstr.findIdx? (fun c => c = '-') with
    | some i => some i
    | none => tstr.findIdx? (fun c => c = '+')
  match tzIdx with
  | none =>
      match parseTimeComps tstr with
      | some (hh, mm, ss, us) =>
          if hh ≤ 23 ∧ mm ≤ 59 ∧ ss ≤ 59 then some (false, naiveKey y m d hh mm ss us)
          else none
      | none => none
  | some i =>
      match parseTimeComps (tstr.take i), parseTzMicros (tstr.drop (i + 1)) with
      | some (hh, mm, ss, us), some off =>
          if hh ≤ 23 ∧ mm ≤ 59 ∧ ss ≤ 59 ∧ off < 86400000000 then
            some (true, naiveKey y m d hh mm ss us
              - (if tstr.getD i ' ' = '-' then -(off : ℤ) else (off : ℤ)))
          else none
      | _, _ => none

/-- Models `datetime.fromisoformat` on the format its documentation pins
for CPython 3.7 to 3.10, with digit-strict components: `YYYY-MM-DD`,
optionally followed by one arbitrary separator character and a time with an
optional UTC offset.  Returns `none` exactly where the library raises
`ValueError`, which `get_latest_close` catches, demoting the row to an
undated fallback candidate. -/
def parsePyDateTime (s : String) : Option PyDT :=
  let cs := s.toList
  match parseDatePart (cs.take 10) with
  | none => none
  | some (y, m, d) =>
      if cs.length = 10 then some (false, naiveKey y m d 0 0 0 0)
      else parseTimeAndTz y m d (cs.drop 11)

/-- Models the Python list slice `l[-k:]` for an arbitrary integer `k`. -/
def pySliceTail {α : Type} (k : ℤ) (l : List α) : List α :=
  if 0 < k then l.drop (l.length - k.toNat) else l.drop (-k).toNat

/-- The series-extraction loop shared by `calculate_average_price` and
`calculate_bollinger_bands`: collect the parseable closes of the rows whose
`symbol` field matches, in input order, skipping unparseable rows. -/
def extractCloses (symbol : String) (data : List Row) : List ℚ :=
  data.foldl
    (fun prices entry =>
      if entry.symbol = some symbol ∧ entry.close.isSome then
        match entry.close.bind parseFloat with
        | some q => prices ++ [q]
        | none => prices
      else prices) []

/-- Embedding of `calculate_average_price` (period as the `nat` it is used
at; the zero and negative period error path is modelled separately by
`calculate_average_price_int`). -/
def calculate_average_price (symbol : String) (data : List Row) (period : ℕ) : ℚ :=
  let prices := extractCloses symbol data
  if prices = [] then 0
  else
    let recent_prices := pySliceTail (period : ℤ) prices
    recent_prices.sum / (period : ℚ)

/-- Embedding of `calculate_average_price` with a Python `int` period of any
sign, recording the error behaviour of the source: `sum(recent) / period`
raises `ZeroDivisionError` when `period = 0`, which is reachable only when
matching closes exist; no other period value raises. -/
def calculate_average_price_int (symbol : String) (data : List Row) (period : ℤ) :
    Except String ℚ :=
  let prices := extractCloses symbol data
  if prices = [] then .ok 0
  else if period = 0 then .error "ZeroDivisionError"
  else .ok ((pySliceTail period prices).sum / (period : ℚ))

/-- The result record of `calculate_bollinger_bands`. -/
@[ext]
structure Bands where
  average : ℝ
  std_dev : ℝ
  upper : ℝ
  lower : ℝ

/-- Embedding of `calculate_bollinger_bands`: population variance over the
last `period` extracted closes, band width two standard deviations. -/
noncomputable def calculate_bollinger_bands (symbol : String) (data : List Row)
    (period : ℕ) : Bands :=
  let prices := extractCloses symbol data
  if prices = [] then ⟨0, 0, 0, 0⟩
  else
    let recent_prices := pySliceTail (period : ℤ) prices
    let avg : ℚ := recent_prices.sum / (period : ℚ)
    let variance : ℚ := ((recent_prices.map (fun p => (p - avg) ^ 2)).sum) / (period : ℚ)
    let std_dev : ℝ := Real.sqrt (variance : ℝ)
    let band_width : ℝ := 2 * std_dev
    ⟨(avg : ℝ), std_dev, (avg : ℝ) + band_width, (avg : ℝ) - band_width⟩

/-- One iteration of the scan loop of `get_latest_close`: on a matching row
with a parseable close, append a (datetime-value, close) pair when the row
carries a nonempty date string `fromisoformat` accepts, and record the
close as the last price seen; otherwise leave the state unchanged. -/
def latestStep (symbol : String) (st : List (PyDT × ℚ) × Option ℚ) (entry : Row) :
    List (PyDT × ℚ) × Option ℚ :=
  if entry.symbol = some symbol ∧ entry.close.isSome then
    match entry.close.bind parseFloat with
    | none => st
    | some close =>
      let dated :=
        match entry.date with
        | some ds =>
            if ds ≠ "" then
              match parsePyDateTime ds with
              | some dt => st.1 ++ [(dt, close)]
              | none => st.1
            else st.1
        | none => st.1
      (dated, some close)
  else st

/-- Models the Python call `max(xs, key=first)` on a nonempty list given as
head and tail: later elements replace the current best only on a strictly
larger key, so the first element with the maximal key is returned. -/
def pyMaxFold (e : PyDT × ℚ) (rest : List (PyDT × ℚ)) : PyDT × ℚ :=
  rest.foldl (fun best x => if best.1.2 < x.1.2 then x else best) e

/-- Embedding of `get_latest_close`: one pass over the table accumulating
the dated (date-key, close) pairs and the last parseable close; then the
first pair with the maximum date key wins, falling back to the last close,
then to `0`. -/
def get_latest_close (symbol : String) (data : List Row) : ℚ :=
  let st := data.foldl (latestStep symbol) ([], none)
  match st.1 with
  | [] => st.2.getD 0
  | e :: rest => (pyMaxFold e rest).2

/-- The row-collection comprehension at the top of `calculate_rsi`: the rows
whose `symbol` matches and which carry a `close` key, in input order. -/
def rsiRows (symbol : String) (data : List Row) : List Row :=
  data.filter (fun e => e.symbol = some symbol ∧ e.close.isSome)

/-- The guarded `rows.sort` step of `calculate_rsi`.  When every row carries
a date string the sort is a stable ascending sort on that raw string (Python
compares the strings themselves here, not parsed dates).  Otherwise the key
comparison raises `TypeError`, which the source swallows, so the rows keep
their original input order, as section 4.5 of the specification states. -/
def sortRowsByDate (rows : List Row) : List Row :=
  if rows.all (fun r => r.date.isSome) then
    rows.mergeSort (fun a b => a.date.getD "" ≤ b.date.getD "")
  else rows

/-- The close-extraction loop inside `calculate_rsi`, run over the sorted
rows: parseable closes in row order, unparseable ones skipped. -/
def parsedCloses (rows : List Row) : List ℚ :=
  rows.foldl
    (fun prices e =>
      match e.close.bind parseFloat with
      | some q => prices ++ [q]
      | none => prices) []

/-- The ordered series `calculate_rsi` works on: matching rows, sorted when
possible, then the parseable closes. -/
def orderedCloses (symbol : String) (data : List Row) : List ℚ :=
  parsedCloses (sortRowsByDate (rsiRows symbol data))

/-- Steps 1 to 3 of `calculate_rsi` on the extracted price series.  The seed
loop `for i in range(1, period + 1)` is written as a map over
`List.range period` with the index shifted by one, and the smoothing loop
`for i in range(period + 1, len(prices))` as a fold over
`List.range (len - (period + 1))` with the index shifted by `period + 1`,
both reading the series by position exactly as the source does. -/
def rsiCore (prices : List ℚ) (period : ℕ) : ℚ :=
  let recent_prices := pySliceTail ((period : ℤ) + 1) prices
  let gains := (List.range period).map (fun i =>
    let change := recent_prices.getD (i + 1) 0 - recent_prices.getD i 0
    if 0 < change then change else 0)
  let losses := (List.range period).map (fun i =>
    let change := recent_prices.getD (i + 1) 0 - recent_prices.getD i 0
    if 0 < change then 0 else -change)
  let avg_gain := gains.sum / (period : ℚ)
  let avg_loss := losses.sum / (period : ℚ)
  let final :=
    (List.range (prices.length - (period + 1))).foldl
      (fun (s : ℚ × ℚ) j =>
        let change := prices.getD (period + 1 + j) 0 - prices.getD (period + j) 0
        let gain := if 0 < change then change else 0
        let loss := if change < 0 then -change else 0
        ((s.1 * ((period : ℚ) - 1) + gain) / (period : ℚ),
         (s.2 * ((period : ℚ) - 1) + loss) / (period : ℚ)))
      (avg_gain, avg_loss)
  if final.2 = 0 then (if 0 < final.1 then 100 else 0)
  else 100 - 100 / (1 + final.1 / final.2)

/-- Embedding of `calculate_rsi`: collect matching rows, sort them when the
date keys allow it, extract the parseable closes, guard the series length,
and run the seed and smoothing computation of `rsiCore`. -/
def calculate_rsi (symbol : String) (data : List Row) (period : ℕ) : ℚ :=
  let rows := rsiRows symbol data
  if rows = [] then 0
  else
    let prices := parsedCloses (sortRowsByDate rows)
    if prices.length < period + 1 then 0
    else rsiCore prices period

/-- The opportunity record produced by the scanner (the close and RSI are
rationals in this model, the band boundary is real because of the square
root inside it). -/
structure Opportunity where
  symbol : String
  latest_close : ℚ
  lower_band : ℝ
  rsi : ℚ

open scoped Classical in
/-- One iteration of the scanner loop: compute the three indicators for a
symbol and keep the opportunity record exactly when the latest close is
positive, below the lower Bollinger band, and the RSI is below 30. -/
noncomputable def scanEntry (data : List Row) (bollinger_bands_period rsi_period : ℕ)
    (s : String) : Option Opportunity :=
  let latest_close := get_latest_close s data
  let bands := calculate_bollinger_bands s data bollinger_bands_period
  let rsi := calculate_rsi s data rsi_period
  if 0 < latest_close ∧ (latest_close : ℝ) < bands.lower ∧ rsi < 30 then
    some ⟨s, latest_close, bands.lower, rsi⟩
  else none

/-- Embedding of `scan_for_opportunities`: the distinct symbols of the
table, in ascending string order, each screened by `scanEntry`. -/
noncomputable def scan_for_opportunities (data : List Row)
    (bollinger_bands_period rsi_period : ℕ) : List Opportunity :=
  let symbols := ((data.filterMap Row.symbol).dedup).mergeSort (fun a b => a ≤ b)
  symbols.filterMap (scanEntry data bollinger_bands_period rsi_period)

/-- The per-row contribution of the extraction loops: the parsed close of a
row whose `symbol` matches and whose `close` parses, `none` otherwise. -/
def rowClose (symbol : String) (e : Row) : Option ℚ :=
  if e.symbol = some symbol ∧ e.close.isSome then e.close.bind parseFloat else none

/-- The dated contribution of one row in `get_latest_close`: the
(datetime-value, close) pair when the row matches, its close parses and it
carries a nonempty date string `fromisoformat` accepts; `none` otherwise. -/
def datedEntry (symbol : String) (e : Row) : Option (PyDT × ℚ) :=
  if e.symbol = some symbol ∧ e.close.isSome then
    match e.close.bind parseFloat with
    | none => none
    | some c =>
      match e.date with
      | some ds => if ds ≠ "" then (parsePyDateTime ds).map (fun dt => (dt, c)) else none
      | none => none
  else none

/-- All dated (date-key, close) pairs `get_latest_close` collects for a
symbol, in input order. -/
def datedCloses (symbol : String) (data : List Row) : List (PyDT × ℚ) :=
  data.filterMap (datedEntry symbol)

/-- Successive one-step differences of a series: entry `i` is the change
from element `i` to element `i + 1`. -/
def diffs (l : List ℚ) : List ℚ :=
  List.zipWith (fun a b => b - a) l l.tail

/-- The RSI computation as the specification words it: seed the averages
from the one-step differences of the last `period + 1` ordered closes
(positive parts for the gain, absolute negative parts for the loss), then
one Wilder smoothing step for the one-step change of each close the series
has beyond its first `period + 1`, then the guarded final formula. -/
def rsiSpec (prices : List ℚ) (period : ℕ) : ℚ :=
  let recent := prices.drop (prices.length - (period + 1))
  let seedGain := ((diffs recent).map (fun c => if 0 < c then c else 0)).sum / (period : ℚ)
  let seedLoss := ((diffs recent).map (fun c => if 0 < c then 0 else -c)).sum / (period : ℚ)
  let final := (diffs (prices.drop period)).foldl
    (fun s c =>
      ((s.1 * ((period : ℚ) - 1) + (if 0 < c then c else 0)) / (period : ℚ),
       (s.2 * ((period : ℚ) - 1) + (if c < 0 then -c else 0)) / (period : ℚ)))
    (seedGain, seedLoss)
  if final.2 = 0 then (if 0 < final.1 then 100 else 0)
  else 100 - 100 / (1 + final.1 / final.2)

instance {ε α : Type} [DecidableEq ε] [DecidableEq α] : DecidableEq (Except ε α) := fun x y =>
  match x, y with
  | .ok a, .ok b =>
      if h : a = b then .isTrue (congrArg Except.ok h)
      else .isFalse (fun hc => h (Except.ok.inj hc))
  | .ok _, .error _ => .isFalse (fun hc => Except.noConfusion hc)
  | .error _, .ok _ => .isFalse (fun hc => Except.noConfusion hc)
  | .error e, .error f =>
      if h : e = f then .isTrue (congrArg Except.error h)
      else .isFalse (fun hc => h (Except.error.inj hc))

/-! ### Helper lemmas about the extraction pipeline -/

lemma foldl_collect_filterMap {α β : Type} (f : α → Option β) (g : List β → α → List β)
    (hg : ∀ ps e, g ps e = ps ++ (f e).toList) :
    ∀ (l : List α) (acc : List β), l.foldl g acc = acc ++ l.filterMap f := by
  intro l
  induction l with
  | nil => intro acc; simp
  | cons e rest ih =>
      intro acc
      rw [List.foldl_cons, ih, hg, List.filterMap_cons]
      cases f e <;> simp

lemma extractCloses_eq_filterMap (symbol : String) (data : List Row) :
    extractCloses symbol data = data.filterMap (rowClose symbol) := by
  rw [extractCloses]
  refine (foldl_collect_filterMap (rowClose symbol) _ (fun ps e => ?_) data []).trans
    (List.nil_append _)
  by_cases h : e.symbol = some symbol ∧ e.close.isSome
  · simp only [rowClose, if_pos h]
    cases e.close.bind parseFloat <;> simp
  · simp [rowClose, h]

lemma parsedCloses_eq_filterMap (rows : List Row) :
    parsedCloses rows = rows.filterMap (fun e => e.close.bind parseFloat) := by
  rw [parsedCloses]
  refine (foldl_collect_filterMap _ _ (fun ps e => ?_) rows []).trans (List.nil_append _)
  cases e.close.bind parseFloat <;> simp

lemma rsiRows_filterMap_eq (symbol : String) (data : List Row) :
    (rsiRows symbol data).filterMap (fun e => e.close.bind parseFloat)
      = extractCloses symbol data := by
  rw [extractCloses_eq_filterMap, rsiRows, List.filterMap_filter]
  refine List.filterMap_congr (fun e _ => ?_)
  by_cases h : e.symbol = some symbol ∧ e.close.isSome <;> simp [rowClose, h]

lemma sortRowsByDate_perm (rows : List Row) : (sortRowsByDate rows).Perm rows := by
  rw [sortRowsByDate]
  split
  · exact List.mergeSort_perm rows _
  · exact List.Perm.refl rows

lemma orderedCloses_perm (symbol : String) (data : List Row) :
    (orderedCloses symbol data).Perm (extractCloses symbol data) := by
  rw [orderedCloses, parsedCloses_eq_filterMap, ← rsiRows_filterMap_eq]
  exact List.Perm.filterMap _ (sortRowsByDate_perm _)

lemma orderedCloses_length (symbol : String) (data : List Row) :
    (orderedCloses symbol data).length = (extractCloses symbol data).length :=
  (orderedCloses_perm symbol data).length_eq

lemma foldl_filter_eq {α β : Type} (p : α → Bool) (f : β → α → β)
    (h : ∀ b a, p a = false → f b a = b) :
    ∀ (l : List α) (b : β), (l.filter p).foldl f b = l.foldl f b := by
  intro l
  induction l with
  | nil => intro b; rfl
  | cons e rest ih =>
      intro b
      cases hp : p e
      · rw [List.filter_cons_of_neg (by simp [hp]), List.foldl_cons, h b e hp, ih]
      · rw [List.filter_cons_of_pos hp, List.foldl_cons, List.foldl_cons, ih]

lemma takeRight_eq_drop {α : Type} (l : List α) (n : ℕ) :
    (l.reverse.take n).reverse = l.drop (l.length - n) := by
  rw [List.reverse_take, List.reverse_reverse, List.length_reverse]

lemma pySliceTail_natCast {α : Type} (l : List α) (period : ℕ) (h : 0 < period) :
    pySliceTail (period : ℤ) l = l.drop (l.length - period) := by
  rw [pySliceTail, if_pos (by exact_mod_cast h), Int.toNat_natCast]

/-! ### Claim theorems -/

/-- C2: for every table, symbol and period at least 1, `calculate_average_price`
returns 0 when no matching parseable closes exist, and otherwise the sum of
the last `min period n` matching parseable closes, in input order, divided by
the nominal `period` even when fewer than `period` closes are available. -/
theorem calculate_average_price_spec (symbol : String) (data : List Row) (period : ℕ)
    (hp : 1 ≤ period) :
    (extractCloses symbol data = [] → calculate_average_price symbol data period = 0) ∧
    (extractCloses symbol data ≠ [] →
      (((extractCloses symbol data).reverse.take period).reverse).length
          = min period (extractCloses symbol data).length ∧
      calculate_average_price symbol data period
          = (((extractCloses symbol data).reverse.take period).reverse).sum / (period : ℚ)) := by
  constructor
  · intro h
    simp [calculate_average_price, h]
  · intro h
    simp only [calculate_average_price, if_neg h]
    rw [pySliceTail_natCast _ _ hp, takeRight_eq_drop, List.length_drop]
    exact ⟨by omega, rfl⟩

theorem calculate_average_price_spec_witness :
    (1 ≤ 2 ∧ extractCloses "A" [⟨some "A", some "1.0", none⟩, ⟨some "A", some "2.5", none⟩,
        ⟨some "A", some "bad", none⟩] ≠ []) ∧
    (((extractCloses "A" [⟨some "A", some "1.0", none⟩, ⟨some "A", some "2.5", none⟩,
        ⟨some "A", some "bad", none⟩]).reverse.take 2).reverse).length
        = min 2 (extractCloses "A" [⟨some "A", some "1.0", none⟩, ⟨some "A", some "2.5", none⟩,
        ⟨some "A", some "bad", none⟩]).length ∧
    calculate_average_price "A" [⟨some "A", some "1.0", none⟩, ⟨some "A", some "2.5", none⟩,
        ⟨some "A", some "bad", none⟩] 2
        = (((extractCloses "A" [⟨some "A", some "1.0", none⟩, ⟨some "A", some "2.5", none⟩,
        ⟨some "A", some "bad", none⟩]).reverse.take 2).reverse).sum / (2 : ℚ) :=
  ⟨⟨by decide, by decide⟩,
    (calculate_average_price_spec "A" _ 2 (by decide)).2 (by decide)⟩

/-- C3: for every table, symbol and period at least 1,
`calculate_bollinger_bands` returns the all-zero record when no matching
parseable closes exist; otherwise, over the last up-to-`period` closes it
returns average `sum / period`, standard deviation the square root of the
sum of squared deviations from that average divided by `period`, and the
bands `average` plus and minus twice the standard deviation. -/
theorem calculate_bollinger_bands_spec (symbol : String) (data : List Row) (period : ℕ)
    (hp : 1 ≤ period) :
    (extractCloses symbol data = [] →
      calculate_bollinger_bands symbol data period = ⟨0, 0, 0, 0⟩) ∧
    (extractCloses symbol data ≠ [] →
      calculate_bollinger_bands symbol data period =
        (let w := ((extractCloses symbol data).reverse.take period).reverse
         let avg : ℚ := w.sum / (period : ℚ)
         let sd : ℝ := Real.sqrt (((w.map (fun p => (p - avg) ^ 2)).sum / (period : ℚ) : ℚ))
         ⟨(avg : ℝ), sd, (avg : ℝ) + 2 * sd, (avg : ℝ) - 2 * sd⟩)) := by
  constructor
  · intro h
    simp [calculate_bollinger_bands, h]
  · intro h
    simp only [calculate_bollinger_bands, if_neg h]
    rw [takeRight_eq_drop, pySliceTail_natCast _ _ hp]

theorem calculate_bollinger_bands_spec_witness :
    (1 ≤ 1 ∧ extractCloses "A" [⟨some "A", some "4.0", none⟩] ≠ []) ∧
    calculate_bollinger_bands "A" [⟨some "A", some "4.0", none⟩] 1 =
      (let w := ((extractCloses "A" [⟨some "A", some "4.0", none⟩]).reverse.take 1).reverse
       let avg : ℚ := w.sum / (1 : ℚ)
       let sd : ℝ := Real.sqrt (((w.map (fun p => (p - avg) ^ 2)).sum / (1 : ℚ) : ℚ))
       ⟨(avg : ℝ), sd, (avg : ℝ) + 2 * sd, (avg : ℝ) - 2 * sd⟩) :=
  ⟨⟨by decide, by decide⟩,
    (calculate_bollinger_bands_spec "A" _ 1 (by decide)).2 (by decide)⟩

/-- C7: for every symbol, table and period at least 1 with at least one
matching parseable close, the band record has a nonnegative standard
deviation and the upper band minus the lower band is exactly four standard
deviations. -/
theorem bollinger_bands_width (symbol : String) (data : List Row) (period : ℕ)
    (hp : 1 ≤ period) (h : extractCloses symbol data ≠ []) :
    0 ≤ (calculate_bollinger_bands symbol data period).std_dev ∧
    (calculate_bollinger_bands symbol data period).upper
        - (calculate_bollinger_bands symbol data period).lower
      = 4 * (calculate_bollinger_bands symbol data period).std_dev := by
  simp only [calculate_bollinger_bands, if_neg h]
  exact ⟨Real.sqrt_nonneg _, by ring⟩

theorem bollinger_bands_width_witness :
    (1 ≤ 3 ∧ extractCloses "A" [⟨some "A", some "2.5", none⟩] ≠ []) ∧
    (0 ≤ (calculate_bollinger_bands "A" [⟨some "A", some "2.5", none⟩] 3).std_dev ∧
     (calculate_bollinger_bands "A" [⟨some "A", some "2.5", none⟩] 3).upper
        - (calculate_bollinger_bands "A" [⟨some "A", some "2.5", none⟩] 3).lower
       = 4 * (calculate_bollinger_bands "A" [⟨some "A", some "2.5", none⟩] 3).std_dev) :=
  ⟨⟨by decide, by decide⟩, bollinger_bands_width "A" _ 3 (by decide) (by decide)⟩

/-- C6: for every table, symbol and period at least 1, if fewer than
`period + 1` matching parseable closes exist (in particular with exactly
`period` closes, or with no matching rows at all), `calculate_rsi`
returns 0. -/
theorem calculate_rsi_insufficient (symbol : String) (data : List Row) (period : ℕ)
    (hp : 1 ≤ period) (h : (extractCloses symbol data).length < period + 1) :
    calculate_rsi symbol data period = 0 := by
  by_cases hrows : rsiRows symbol data = []
  · simp [calculate_rsi, hrows]
  · have hlen : (parsedCloses (sortRowsByDate (rsiRows symbol data))).length < period + 1 := by
      have hl := orderedCloses_length symbol data
      rw [orderedCloses] at hl
      omega
    simp only [calculate_rsi, if_neg hrows, if_pos hlen]

theorem calculate_rsi_insufficient_witness :
    (1 ≤ 1 ∧ (extractCloses "A" [⟨some "A", some "3.0", none⟩]).length < 1 + 1) ∧
    calculate_rsi "A" [⟨some "A", some "3.0", none⟩] 1 = 0 :=
  ⟨⟨by decide, by decide⟩,
    calculate_rsi_insufficient "A" _ 1 (by decide) (by decide)⟩

/-- C8 evaluation: the reference code does not guard zero or negative
periods.  With the Python `int` period model, a negative period on a table
with matching closes returns a value (the slice `prices[1:]` summed and
divided by `-1`) instead of failing; a zero period on a table with no
matching closes silently returns the 0 sentinel before the division is ever
reached; and the only error the code can raise for a bad period is the
`ZeroDivisionError` of `period = 0` with matching closes, not an
InvalidArgument-style guard. -/
theorem average_price_period_unguarded :
    (calculate_average_price_int "A"
        [⟨some "A", some "1.0", none⟩, ⟨some "A", some "2.0", none⟩] (-1)).isOk = true ∧
    (calculate_average_price_int "B" [] 0).isOk = true ∧
    calculate_average_price_int "A"
        [⟨some "A", some "1.0", none⟩, ⟨some "A", some "2.0", none⟩] 0
      = .error "ZeroDivisionError" := by
  refine ⟨by decide, by decide, by decide⟩

/-! ### Characterisation of `get_latest_close` -/

lemma datedEntry_eq_none (symbol : String) (e : Row) (h : rowClose symbol e = none) :
    datedEntry symbol e = none := by
  rw [rowClose] at h
  rw [datedEntry]
  by_cases hg : e.symbol = some symbol ∧ e.close.isSome
  · rw [if_pos hg] at h
    rw [if_pos hg, h]
  · rw [if_neg hg]

lemma latestStep_eq (symbol : String) (st : List (PyDT × ℚ) × Option ℚ) (e : Row) :
    latestStep symbol st e
      = (st.1 ++ (datedEntry symbol e).toList, (rowClose symbol e).elim st.2 some) := by
  rw [latestStep, datedEntry, rowClose]
  by_cases h : e.symbol = some symbol ∧ e.close.isSome
  · simp only [if_pos h]
    cases hc : e.close.bind parseFloat with
    | none => simp
    | some c =>
        cases hd : e.date with
        | none => simp
        | some ds =>
            by_cases hds : ds = ""
            · simp [hds]
            · cases hp2 : parsePyDateTime ds <;> simp [hds, hp2]
  · simp [h]

lemma getLast?_cons_elim (c : ℚ) (l : List ℚ) (b : Option ℚ) :
    ((c :: l).getLast?).elim b some = (l.getLast?).elim (some c) some := by
  cases hl : l.getLast? <;> simp [List.getLast?_cons, hl]

lemma foldl_latestStep (symbol : String) :
    ∀ (data : List Row) (A : List (PyDT × ℚ)) (b : Option ℚ),
      data.foldl (latestStep symbol) (A, b)
        = (A ++ datedCloses symbol data,
           ((data.filterMap (rowClose symbol)).getLast?).elim b some) := by
  intro data
  induction data with
  | nil => intro A b; simp [datedCloses]
  | cons e rest ih =>
      intro A b
      rw [List.foldl_cons, latestStep_eq, ih]
      simp only [datedCloses, List.filterMap_cons]
      cases hc : rowClose symbol e with
      | none =>
          have hde : datedEntry symbol e = none := datedEntry_eq_none symbol e hc
          simp [hde]
      | some c =>
          cases hde : datedEntry symbol e with
          | none => simp [getLast?_cons_elim]
          | some p => simp [getLast?_cons_elim, List.append_assoc]

lemma get_latest_close_eq (symbol : String) (data : List Row) :
    get_latest_close symbol data
      = match datedCloses symbol data with
        | [] => ((extractCloses symbol data).getLast?).getD 0
        | e :: rest => (pyMaxFold e rest).2 := by
  rw [get_latest_close, foldl_latestStep]
  simp only [List.nil_append, ← extractCloses_eq_filterMap]
  cases hd : datedCloses symbol data with
  | nil => cases hl : (extractCloses symbol data).getLast? <;> simp [hl]
  | cons e rest => simp

lemma pyMaxFold_of_ge (e : PyDT × ℚ) (rest : List (PyDT × ℚ)) (h : ∀ z ∈ rest, z.1.2 ≤ e.1.2) :
    pyMaxFold e rest = e := by
  induction rest with
  | nil => rfl
  | cons x t ih =>
      have hx : ¬ e.1.2 < x.1.2 := not_lt.mpr (h x (List.mem_cons_self _ _))
      simp only [pyMaxFold, List.foldl_cons, if_neg hx]
      exact ih (fun z hz => h z (List.mem_cons_of_mem x hz))

lemma pyMaxFold_firstMax (x : PyDT × ℚ) (post : List (PyDT × ℚ))
    (hpost : ∀ z ∈ post, z.1.2 ≤ x.1.2) :
    ∀ (pre : List (PyDT × ℚ)) (e : PyDT × ℚ), e.1.2 < x.1.2 → (∀ z ∈ pre, z.1.2 < x.1.2) →
      pyMaxFold e (pre ++ x :: post) = x := by
  intro pre
  induction pre with
  | nil =>
      intro e he _
      simp only [List.nil_append, pyMaxFold, List.foldl_cons, if_pos he]
      exact pyMaxFold_of_ge x post hpost
  | cons p t ih =>
      intro e he hpre
      simp only [List.cons_append, pyMaxFold, List.foldl_cons]
      by_cases hep : e.1.2 < p.1.2
      · rw [if_pos hep]
        exact ih p (hpre p (List.mem_cons_self _ _))
          (fun z hz => hpre z (List.mem_cons_of_mem _ hz))
      · rw [if_neg hep]
        exact ih e he (fun z hz => hpre z (List.mem_cons_of_mem _ hz))

lemma pyMaxFold_mem (e : PyDT × ℚ) (rest : List (PyDT × ℚ)) : pyMaxFold e rest ∈ e :: rest := by
  induction rest generalizing e with
  | nil => exact List.mem_cons_self _ _
  | cons x t ih =>
      simp only [pyMaxFold, List.foldl_cons]
      by_cases h : e.1.2 < x.1.2
      · rw [if_pos h]
        exact List.mem_cons_of_mem e (ih x)
      · rw [if_neg h]
        rcases List.mem_cons.mp (ih e) with h1 | h1
        · rw [show (pyMaxFold e t) = List.foldl (fun best x => if best.1.2 < x.1.2 then x else best) e t from rfl] at h1
          rw [h1]
          exact List.mem_cons_self _ _
        · exact List.mem_cons_of_mem _ (List.mem_cons_of_mem _ h1)

lemma pyMaxFold_ge (e : PyDT × ℚ) (rest : List (PyDT × ℚ)) :
    ∀ y ∈ e :: rest, y.1.2 ≤ (pyMaxFold e rest).1.2 := by
  induction rest generalizing e with
  | nil =>
      intro y hy
      rcases List.mem_cons.mp hy with h | h
      · rw [h]
        exact le_refl _
      · exact absurd h (List.not_mem_nil y)
  | cons x t ih =>
      intro y hy
      simp only [pyMaxFold, List.foldl_cons]
      by_cases h : e.1.2 < x.1.2
      · rw [if_pos h]
        rcases List.mem_cons.mp hy with h1 | h1
        · rw [h1]
          exact (le_of_lt h).trans (ih x x (List.mem_cons_self _ _))
        · exact ih x y h1
      · rw [if_neg h]
        rcases List.mem_cons.mp hy with h1 | h1
        · rw [h1]
          exact ih e e (List.mem_cons_self _ _)
        · rcases List.mem_cons.mp h1 with h2 | h2
          · rw [h2]
            exact (not_lt.mp h).trans (ih e e (List.mem_cons_self _ _))
          · exact ih e y (List.mem_cons_of_mem _ h2)

/-- C5: for every table and symbol whose dated rows agree in awareness (all
naive or all offset-aware; a mixed table makes the source raise `TypeError`
out of `max`, a case outside the claim), `get_latest_close` returns the
close of a matching row carrying the maximum valid date when any validly
dated matching row exists (malformed dates only ever feed the fallback);
with no validly dated matching row it returns the last matching parseable
close in input order; and with no matching parseable rows at all it
returns 0. -/
theorem get_latest_close_spec (symbol : String) (data : List Row)
    (hflags : ∀ x ∈ datedCloses symbol data, ∀ y ∈ datedCloses symbol data,
      x.1.1 = y.1.1) :
    (datedCloses symbol data ≠ [] →
      ∃ x ∈ datedCloses symbol data,
        (∀ y ∈ datedCloses symbol data, y.1.2 ≤ x.1.2) ∧ get_latest_close symbol data = x.2) ∧
    (datedCloses symbol data = [] → extractCloses symbol data ≠ [] →
      get_latest_close symbol data = ((extractCloses symbol data).getLast?).getD 0) ∧
    (extractCloses symbol data = [] → get_latest_close symbol data = 0) := by
  refine ⟨?_, ?_, ?_⟩
  · intro hne
    rw [get_latest_close_eq]
    cases hd : datedCloses symbol data with
    | nil => exact absurd hd hne
    | cons e rest =>
        exact ⟨pyMaxFold e rest, pyMaxFold_mem e rest, pyMaxFold_ge e rest, rfl⟩
  · intro hd _
    rw [get_latest_close_eq, hd]
  · intro hx
    have hd : datedCloses symbol data = [] := by
      rw [datedCloses, List.filterMap_eq_nil_iff]
      intro e he
      refine datedEntry_eq_none symbol e ?_
      have hfm : data.filterMap (rowClose symbol) = [] := by
        rw [← extractCloses_eq_filterMap, hx]
      exact List.filterMap_eq_nil_iff.mp hfm e he
    rw [get_latest_close_eq, hd, hx]
    rfl

theorem get_latest_close_spec_witness :
    ((∀ x ∈ datedCloses "A" [⟨some "A", some "5.0", some "2021-01-02"⟩,
        ⟨some "A", some "7.0", none⟩],
      ∀ y ∈ datedCloses "A" [⟨some "A", some "5.0", some "2021-01-02"⟩,
        ⟨some "A", some "7.0", none⟩], x.1.1 = y.1.1) ∧
     datedCloses "A" [⟨some "A", some "5.0", some "2021-01-02"⟩,
        ⟨some "A", some "7.0", none⟩] ≠ []) ∧
    (∃ x ∈ datedCloses "A" [⟨some "A", some "5.0", some "2021-01-02"⟩,
        ⟨some "A", some "7.0", none⟩],
      (∀ y ∈ datedCloses "A" [⟨some "A", some "5.0", some "2021-01-02"⟩,
          ⟨some "A", some "7.0", none⟩], y.1.2 ≤ x.1.2) ∧
      get_latest_close "A" [⟨some "A", some "5.0", some "2021-01-02"⟩,
          ⟨some "A", some "7.0", none⟩] = x.2) :=
  ⟨⟨by decide, by decide⟩, (get_latest_close_spec "A" _ (by decide)).1 (by decide)⟩

/-- C10: when two or more matching rows carry the same maximum valid date
(the table's dated rows agreeing in awareness, since a mixed table makes
the source raise `TypeError` out of `max`), `get_latest_close` returns the
close of the earliest such row in input order, i.e. the first maximal
dated entry, not the last one. -/
theorem get_latest_close_tie (symbol : String) (data : List Row)
    (pre post : List (PyDT × ℚ)) (x : PyDT × ℚ)
    (hsplit : datedCloses symbol data = pre ++ x :: post)
    (hpre : ∀ z ∈ pre, z.1.2 < x.1.2)
    (hpost : ∀ z ∈ post, z.1.2 ≤ x.1.2)
    (htie : ∃ z ∈ post, z.1.2 = x.1.2)
    (hflags : ∀ z ∈ datedCloses symbol data, ∀ w ∈ datedCloses symbol data,
      z.1.1 = w.1.1) :
    get_latest_close symbol data = x.2 := by
  rw [get_latest_close_eq, hsplit]
  cases pre with
  | nil =>
      simp only [List.nil_append]
      show (pyMaxFold x post).2 = x.2
      rw [pyMaxFold_of_ge x post hpost]
  | cons p t =>
      simp only [List.cons_append]
      show (pyMaxFold p (t ++ x :: post)).2 = x.2
      rw [pyMaxFold_firstMax x post hpost t p (hpre p (List.mem_cons_self _ _))
        (fun z hz => hpre z (List.mem_cons_of_mem _ hz))]

theorem get_latest_close_tie_witness :
    (datedCloses "A" [⟨some "A", some "5.0", some "2021-01-02"⟩,
          ⟨some "A", some "7.0", some "2021-01-02"⟩]
        = [] ++ (datedCloses "A" [⟨some "A", some "5.0", some "2021-01-02"⟩,
          ⟨some "A", some "7.0", some "2021-01-02"⟩]).getD 0 ((false, 0), 0)
          :: (datedCloses "A" [⟨some "A", some "5.0", some "2021-01-02"⟩,
          ⟨some "A", some "7.0", some "2021-01-02"⟩]).tail ∧
     (∀ z ∈ ([] : List (PyDT × ℚ)),
        z.1.2 < ((datedCloses "A" [⟨some "A", some "5.0", some "2021-01-02"⟩,
          ⟨some "A", some "7.0", some "2021-01-02"⟩]).getD 0 ((false, 0), 0)).1.2) ∧
     (∀ z ∈ (datedCloses "A" [⟨some "A", some "5.0", some "2021-01-02"⟩,
          ⟨some "A", some "7.0", some "2021-01-02"⟩]).tail,
        z.1.2 ≤ ((datedCloses "A" [⟨some "A", some "5.0", some "2021-01-02"⟩,
          ⟨some "A", some "7.0", some "2021-01-02"⟩]).getD 0 ((false, 0), 0)).1.2) ∧
     (∃ z ∈ (datedCloses "A" [⟨some "A", some "5.0", some "2021-01-02"⟩,
          ⟨some "A", some "7.0", some "2021-01-02"⟩]).tail,
        z.1.2 = ((datedCloses "A" [⟨some "A", some "5.0", some "2021-01-02"⟩,
          ⟨some "A", some "7.0", some "2021-01-02"⟩]).getD 0 ((false, 0), 0)).1.2) ∧
     (∀ z ∈ datedCloses "A" [⟨some "A", some "5.0", some "2021-01-02"⟩,
          ⟨some "A", some "7.0", some "2021-01-02"⟩],
      ∀ w ∈ datedCloses "A" [⟨some "A", some "5.0", some "2021-01-02"⟩,
          ⟨some "A", some "7.0", some "2021-01-02"⟩], z.1.1 = w.1.1)) ∧
    get_latest_close "A" [⟨some "A", some "5.0", some "2021-01-02"⟩,
          ⟨some "A", some "7.0", some "2021-01-02"⟩]
      = ((datedCloses "A" [⟨some "A", some "5.0", some "2021-01-02"⟩,
          ⟨some "A", some "7.0", some "2021-01-02"⟩]).getD 0 ((false, 0), 0)).2 :=
  ⟨⟨rfl, by decide, by decide, by decide, by decide⟩,
    get_latest_close_tie "A" _ [] _ _ rfl (by decide) (by decide) (by decide) (by decide)⟩

/-! ### The RSI computation -/

lemma getD_drop (l : List ℚ) (i j : ℕ) : (l.drop i).getD j 0 = l.getD (i + j) 0 := by
  rw [List.getD_eq_getElem?_getD, List.getD_eq_getElem?_getD, List.getElem?_drop]

lemma diffs_map_getD :
    ∀ l : List ℚ,
      diffs l = (List.range (l.length - 1)).map (fun i => l.getD (i + 1) 0 - l.getD i 0)
  | [] => by simp [diffs]
  | [a] => by simp [diffs]
  | a :: b :: t => by
      have ih := diffs_map_getD (b :: t)
      show (b - a) :: diffs (b :: t) = _
      rw [ih]
      have h1 : (a :: b :: t).length - 1 = ((b :: t).length - 1) + 1 := by
        simp
      rw [h1, List.range_succ_eq_map, List.map_cons, List.map_map]
      refine congrArg₂ List.cons (by simp) ?_
      refine List.map_congr_left (fun i hi => ?_)
      simp [Function.comp, List.getD_cons_succ]

set_option maxRecDepth 4000 in
lemma rsiCore_eq_rsiSpec (prices : List ℚ) (period : ℕ) (hp : 1 ≤ period)
    (h : period + 1 ≤ prices.length) :
    rsiCore prices period = rsiSpec prices period := by
  have hslice : pySliceTail ((period : ℤ) + 1) prices
      = prices.drop (prices.length - (period + 1)) := by
    have hcast : ((period : ℤ) + 1) = ((period + 1 : ℕ) : ℤ) := by push_cast; ring
    rw [hcast, pySliceTail_natCast _ _ (Nat.succ_pos period)]
  have hRlen : (prices.drop (prices.length - (period + 1))).length = period + 1 := by
    rw [List.length_drop]; omega
  have hdlen : (prices.drop period).length - 1 = prices.length - (period + 1) := by
    rw [List.length_drop]; omega
  simp only [rsiCore, rsiSpec, hslice, diffs_map_getD, List.map_map, List.foldl_map,
    hRlen, hdlen, Nat.add_succ_sub_one, Nat.add_zero, Function.comp_def, getD_drop]
  have harith : ∀ j : ℕ, period + 1 + j = period + (j + 1) := by omega
  simp only [harith]

/-- C1: for every table, symbol and period at least 1 such that the ordered
matching parseable closes number at least `period + 1`, `calculate_rsi`
seeds the gain average from the positive one-step differences (others as 0)
and the loss average from the absolute negative one-step differences over
the last `period + 1` closes, each divided by `period`; then applies one
Wilder smoothing step `avg = (avg * (period - 1) + x) / period` per
additional close the series holds beyond that initial window count (the
closes after the first `period + 1`, each contributing its own one-step
change, so no step happens when the count is exactly `period + 1`), and
finally returns 100 if the loss average is 0 and the gain average positive,
0 if both are 0, and `100 - 100 / (1 + gain / loss)` otherwise — the
computation `rsiSpec` states in the words of the specification. -/
theorem calculate_rsi_spec (symbol : String) (data : List Row) (period : ℕ)
    (hp : 1 ≤ period) (h : period + 1 ≤ (orderedCloses symbol data).length) :
    calculate_rsi symbol data period = rsiSpec (orderedCloses symbol data) period := by
  have hrows : ¬ rsiRows symbol data = [] := by
    intro hr
    have he : extractCloses symbol data = [] := by
      rw [← rsiRows_filterMap_eq, hr]
      rfl
    have hlen := orderedCloses_length symbol data
    rw [he] at hlen
    simp only [List.length_nil] at hlen
    omega
  have hord : parsedCloses (sortRowsByDate (rsiRows symbol data))
      = orderedCloses symbol data := rfl
  have hnl : ¬ (parsedCloses (sortRowsByDate (rsiRows symbol data))).length < period + 1 := by
    rw [hord]
    omega
  simp only [calculate_rsi, if_neg hrows, if_neg hnl]
  rw [hord]
  exact rsiCore_eq_rsiSpec _ period hp h

theorem calculate_rsi_spec_witness :
    (1 ≤ 1 ∧ 1 + 1 ≤ (orderedCloses "A"
        [⟨some "A", some "1.0", none⟩, ⟨some "A", some "2.0", none⟩]).length) ∧
    calculate_rsi "A" [⟨some "A", some "1.0", none⟩, ⟨some "A", some "2.0", none⟩] 1
      = rsiSpec (orderedCloses "A"
          [⟨some "A", some "1.0", none⟩, ⟨some "A", some "2.0", none⟩]) 1 :=
  ⟨⟨by decide, by decide⟩, calculate_rsi_spec "A" _ 1 (by decide) (by decide)⟩

/-! ### Purity: only rows of the queried symbol matter -/

lemma rowClose_eq_none_of_mismatch (symbol : String) (e : Row)
    (h : ¬ e.symbol = some symbol) : rowClose symbol e = none := by
  simp [rowClose, h]

lemma datedEntry_eq_none_of_mismatch (symbol : String) (e : Row)
    (h : ¬ e.symbol = some symbol) : datedEntry symbol e = none := by
  simp [datedEntry, h]

lemma filterMap_eq_filterMap_filter {β : Type} (f : Row → Option β) (symbol : String)
    (hf : ∀ e, ¬ e.symbol = some symbol → f e = none) (data : List Row) :
    data.filterMap f = (data.filter (fun e => e.symbol = some symbol)).filterMap f := by
  induction data with
  | nil => rfl
  | cons e rest ih =>
      by_cases h : e.symbol = some symbol
      · rw [List.filter_cons_of_pos (by simpa using h), List.filterMap_cons,
          List.filterMap_cons, ih]
      · rw [List.filter_cons_of_neg (by simpa using h), List.filterMap_cons, hf e h, ih]

lemma rsiRows_restrict (symbol : String) (d₁ d₂ : List Row)
    (h : d₁.filter (fun e => e.symbol = some symbol)
       = d₂.filter (fun e => e.symbol = some symbol)) :
    rsiRows symbol d₁ = rsiRows symbol d₂ := by
  have key : ∀ d : List Row,
      rsiRows symbol d
        = (d.filter (fun e => e.symbol = some symbol)).filter (fun e => e.close.isSome) := by
    intro d
    rw [rsiRows, List.filter_filter]
    refine List.filter_congr (fun e _ => ?_)
    simp [Bool.and_comm]
  rw [key d₁, key d₂, h]

lemma extractCloses_restrict (symbol : String) (d₁ d₂ : List Row)
    (h : d₁.filter (fun e => e.symbol = some symbol)
       = d₂.filter (fun e => e.symbol = some symbol)) :
    extractCloses symbol d₁ = extractCloses symbol d₂ := by
  rw [extractCloses_eq_filterMap, extractCloses_eq_filterMap,
    filterMap_eq_filterMap_filter (rowClose symbol) symbol
      (rowClose_eq_none_of_mismatch symbol) d₁,
    filterMap_eq_filterMap_filter (rowClose symbol) symbol
      (rowClose_eq_none_of_mismatch symbol) d₂, h]

lemma datedCloses_restrict (symbol : String) (d₁ d₂ : List Row)
    (h : d₁.filter (fun e => e.symbol = some symbol)
       = d₂.filter (fun e => e.symbol = some symbol)) :
    datedCloses symbol d₁ = datedCloses symbol d₂ := by
  rw [datedCloses, datedCloses,
    filterMap_eq_filterMap_filter (datedEntry symbol) symbol
      (datedEntry_eq_none_of_mismatch symbol) d₁,
    filterMap_eq_filterMap_filter (datedEntry symbol) symbol
      (datedEntry_eq_none_of_mismatch symbol) d₂, h]

/-- C9: each of the four indicator functions is a pure function in the
embedding, so two runs on identical inputs are definitionally identical;
the theorem proves the per-symbol dependence: whenever two tables have the
same subsequence of rows whose `symbol` equals the queried symbol, all four
functions agree on that symbol — rows of other symbols never influence the
result. -/
theorem indicators_pure (symbol : String) (d₁ d₂ : List Row) (period : ℕ)
    (h : d₁.filter (fun e => e.symbol = some symbol)
       = d₂.filter (fun e => e.symbol = some symbol)) :
    calculate_average_price symbol d₁ period = calculate_average_price symbol d₂ period ∧
    calculate_bollinger_bands symbol d₁ period = calculate_bollinger_bands symbol d₂ period ∧
    get_latest_close symbol d₁ = get_latest_close symbol d₂ ∧
    calculate_rsi symbol d₁ period = calculate_rsi symbol d₂ period := by
  have hex := extractCloses_restrict symbol d₁ d₂ h
  have hda := datedCloses_restrict symbol d₁ d₂ h
  have hro := rsiRows_restrict symbol d₁ d₂ h
  refine ⟨?_, ?_, ?_, ?_⟩
  · simp only [calculate_average_price, hex]
  · simp only [calculate_bollinger_bands, hex]
  · rw [get_latest_close_eq, get_latest_close_eq, hda, hex]
  · simp only [calculate_rsi, hro]

theorem indicators_pure_witness :
    (([⟨some "A", some "1.0", none⟩, ⟨some "B", some "9.0", none⟩] : List Row).filter
        (fun e => e.symbol = some "A")
      = ([⟨some "C", some "4.0", none⟩, ⟨some "A", some "1.0", none⟩] : List Row).filter
        (fun e => e.symbol = some "A")) ∧
    (calculate_average_price "A" [⟨some "A", some "1.0", none⟩, ⟨some "B", some "9.0", none⟩] 3
        = calculate_average_price "A" [⟨some "C", some "4.0", none⟩, ⟨some "A", some "1.0", none⟩] 3 ∧
     calculate_bollinger_bands "A" [⟨some "A", some "1.0", none⟩, ⟨some "B", some "9.0", none⟩] 3
        = calculate_bollinger_bands "A" [⟨some "C", some "4.0", none⟩, ⟨some "A", some "1.0", none⟩] 3 ∧
     get_latest_close "A" [⟨some "A", some "1.0", none⟩, ⟨some "B", some "9.0", none⟩]
        = get_latest_close "A" [⟨some "C", some "4.0", none⟩, ⟨some "A", some "1.0", none⟩] ∧
     calculate_rsi "A" [⟨some "A", some "1.0", none⟩, ⟨some "B", some "9.0", none⟩] 3
        = calculate_rsi "A" [⟨some "C", some "4.0", none⟩, ⟨some "A", some "1.0", none⟩] 3) :=
  ⟨by decide, indicators_pure "A" _ _ 3 (by decide)⟩

/-! ### The opportunity scanner -/

lemma scanEntry_eq_some_iff (data : List Row) (bp rp : ℕ) (s : String) (rec : Opportunity) :
    scanEntry data bp rp s = some rec ↔
      ((0 < get_latest_close s data ∧
        (get_latest_close s data : ℝ) < (calculate_bollinger_bands s data bp).lower ∧
        calculate_rsi s data rp < 30) ∧
       rec = ⟨s, get_latest_close s data, (calculate_bollinger_bands s data bp).lower,
         calculate_rsi s data rp⟩) := by
  simp only [scanEntry]
  split_ifs with hc
  · constructor
    · intro hsome
      exact ⟨hc, (Option.some.inj hsome).symm⟩
    · rintro ⟨_, rfl⟩
      rfl
  · constructor
    · intro hsome
      cases hsome
    · rintro ⟨hcond, _⟩
      exact absurd hcond hc

lemma sortedSymbols_pairwise (data : List Row) :
    (((data.filterMap Row.symbol).dedup).mergeSort
        (fun a b : String => a ≤ b)).Pairwise (fun a b => a < b) := by
  have htrans : ∀ (a b c : String),
      (decide (a ≤ b)) = true → (decide (b ≤ c)) = true → (decide (a ≤ c)) = true := by
    intro a b c hab hbc
    simp only [decide_eq_true_eq] at *
    exact le_trans hab hbc
  have htotal : ∀ (a b : String), ((decide (a ≤ b)) || (decide (b ≤ a))) = true := by
    intro a b
    rcases le_total a b with h | h <;> simp [h]
  have hsorted := List.sorted_mergeSort htrans htotal ((data.filterMap Row.symbol).dedup)
  have hnodup : (((data.filterMap Row.symbol).dedup).mergeSort
      (fun a b : String => a ≤ b)).Nodup :=
    (List.mergeSort_perm _ _).symm.nodup (List.nodup_dedup _)
  have hle : (((data.filterMap Row.symbol).dedup).mergeSort
      (fun a b : String => a ≤ b)).Pairwise (fun a b : String => a ≤ b) :=
    hsorted.imp (fun h => by simpa using h)
  exact (hle.and hnodup).imp (fun h => lt_of_le_of_ne h.1 h.2)

/-- C4: for every table whose dated rows agree in awareness (all naive or
all offset-aware; mixing the two makes the source raise `TypeError` inside
`get_latest_close`, a case outside the claim) and positive periods, the
scanner output is sorted strictly ascending by symbol; a symbol present in
the table appears in the output exactly when its latest close is positive,
below its lower Bollinger band, and its RSI is below 30; and every
returned record carries exactly the latest close, lower band and RSI of
its symbol. -/
theorem scan_for_opportunities_spec (data : List Row) (bp rp : ℕ)
    (hb : 1 ≤ bp) (hr : 1 ≤ rp)
    (hdates : ∀ x ∈ data.filterMap (fun e => e.date.bind parsePyDateTime),
      ∀ y ∈ data.filterMap (fun e => e.date.bind parsePyDateTime), x.1 = y.1) :
    (scan_for_opportunities data bp rp).Pairwise (fun a b => a.symbol < b.symbol) ∧
    (∀ s : String, (∃ e ∈ data, e.symbol = some s) →
      ((∃ rec ∈ scan_for_opportunities data bp rp, rec.symbol = s) ↔
        (0 < get_latest_close s data ∧
         (get_latest_close s data : ℝ) < (calculate_bollinger_bands s data bp).lower ∧
         calculate_rsi s data rp < 30))) ∧
    (∀ rec ∈ scan_for_opportunities data bp rp,
      rec.latest_close = get_latest_close rec.symbol data ∧
      rec.lower_band = (calculate_bollinger_bands rec.symbol data bp).lower ∧
      rec.rsi = calculate_rsi rec.symbol data rp) := by
  refine ⟨?_, ?_, ?_⟩
  · simp only [scan_for_opportunities]
    refine List.pairwise_filterMap.mpr ?_
    refine (sortedSymbols_pairwise data).imp ?_
    intro a b hab rec hrec rec' hrec'
    have h1 := ((scanEntry_eq_some_iff data bp rp a rec).mp hrec).2
    have h2 := ((scanEntry_eq_some_iff data bp rp b rec').mp hrec').2
    rw [h1, h2]
    exact hab
  · intro s hs
    have hmem : s ∈ ((data.filterMap Row.symbol).dedup).mergeSort
        (fun a b : String => a ≤ b) := by
      rw [List.mem_mergeSort, List.mem_dedup, List.mem_filterMap]
      obtain ⟨e, he, hsym⟩ := hs
      exact ⟨e, he, hsym⟩
    constructor
    · rintro ⟨rec, hrec, hsymrec⟩
      simp only [scan_for_opportunities] at hrec
      obtain ⟨s', hs', hfs'⟩ := List.mem_filterMap.mp hrec
      obtain ⟨hcond, hrec_eq⟩ := (scanEntry_eq_some_iff data bp rp s' rec).mp hfs'
      have hss : s' = s := by
        rw [hrec_eq] at hsymrec
        exact hsymrec
      rw [← hss]
      exact hcond
    · intro hcond
      refine ⟨⟨s, get_latest_close s data, (calculate_bollinger_bands s data bp).lower,
        calculate_rsi s data rp⟩, ?_, rfl⟩
      simp only [scan_for_opportunities]
      exact List.mem_filterMap.mpr
        ⟨s, hmem, (scanEntry_eq_some_iff data bp rp s _).mpr ⟨hcond, rfl⟩⟩
  · intro rec hrec
    simp only [scan_for_opportunities] at hrec
    obtain ⟨s', hs', hfs'⟩ := List.mem_filterMap.mp hrec
    obtain ⟨hcond, hrec_eq⟩ := (scanEntry_eq_some_iff data bp rp s' rec).mp hfs'
    rw [hrec_eq]
    exact ⟨rfl, rfl, rfl⟩

theorem scan_for_opportunities_spec_witness :
    (1 ≤ 20 ∧ 1 ≤ 14 ∧
     (∀ x ∈ ([⟨some "A", some "1.0", none⟩] : List Row).filterMap
        (fun e => e.date.bind parsePyDateTime),
      ∀ y ∈ ([⟨some "A", some "1.0", none⟩] : List Row).filterMap
        (fun e => e.date.bind parsePyDateTime), x.1 = y.1)) ∧
    ((scan_for_opportunities [⟨some "A", some "1.0", none⟩] 20 14).Pairwise
        (fun a b => a.symbol < b.symbol) ∧
     (∀ s : String, (∃ e ∈ ([⟨some "A", some "1.0", none⟩] : List Row), e.symbol = some s) →
       ((∃ rec ∈ scan_for_opportunities [⟨some "A", some "1.0", none⟩] 20 14,
           rec.symbol = s) ↔
         (0 < get_latest_close s [⟨some "A", some "1.0", none⟩] ∧
          (get_latest_close s [⟨some "A", some "1.0", none⟩] : ℝ)
            < (calculate_bollinger_bands s [⟨some "A", some "1.0", none⟩] 20).lower ∧
          calculate_rsi s [⟨some "A", some "1.0", none⟩] 14 < 30))) ∧
     (∀ rec ∈ scan_for_opportunities [⟨some "A", some "1.0", none⟩] 20 14,
       rec.latest_close = get_latest_close rec.symbol [⟨some "A", some "1.0", none⟩] ∧
       rec.lower_band
         = (calculate_bollinger_bands rec.symbol [⟨some "A", some "1.0", none⟩] 20).lower ∧
       rec.rsi = calculate_rsi rec.symbol [⟨some "A", some "1.0", none⟩] 14)) :=
  ⟨⟨by decide, by decide, by decide⟩,
    scan_for_opportunities_spec [⟨some "A", some "1.0", none⟩] 20 14 (by decide) (by decide)
      (by decide)⟩
